import Mathlib

/-!
Shallow embedding of the `bevy_event_entities` repository.

Source of the event queue: `src/lib.rs` (`EventSequence`, `EventEntities`,
`ManualEventReader`, `EntityEventIterator`).  Source of the listener
dispatch engine: `src/event_listener.rs` and
`crates/event_listener/src/lib.rs` (`propagate_events`, the deferred
closure of `run_callbacks`, `EventType::swap_target`).

Modelling conventions: Rust `usize` is `Nat` (its `saturating_sub` is the
truncated subtraction of `Nat`; wherever the Rust code uses a plain `-`
that could underflow, the theorems state the no-underflow side condition
explicitly).  `Entity` identifiers are opaque, so they are modelled as
`Nat` with equality only.  Lazy draining iterators are modelled as the
pair (list of drained elements in order, state after a full drain).
Panics are modelled with `Option`/`Except`.
-/

namespace BevyEvents

abbrev Entity := Nat

/-- `EventSequence` (src/lib.rs): an ordered list of event entities plus
the value of the send counter when this sequence last became the "newer"
buffer. -/
structure EventSequence where
  events : List Entity
  start_event_count : Nat
deriving DecidableEq

/-- `EventEntities` (src/lib.rs): double-buffered event queue with a
monotone send counter. -/
structure EventEntities where
  events_a : EventSequence
  events_b : EventSequence
  event_count : Nat
deriving DecidableEq

/-- `EventEntities::default()`: both sequences empty, all counters zero. -/
def EventEntities.default : EventEntities :=
  { events_a := ⟨[], 0⟩, events_b := ⟨[], 0⟩, event_count := 0 }

/-- `EventEntities::push`: append to the newer sequence `events_b` and
increment the send counter. -/
def EventEntities.push (s : EventEntities) (e : Entity) : EventEntities :=
  { s with
      events_b := ⟨s.events_b.events ++ [e], s.events_b.start_event_count⟩
      event_count := s.event_count + 1 }

/-- `Extend<Entity> for EventEntities`: append all items to `events_b`,
incrementing the counter once per item. -/
def EventEntities.extendList (s : EventEntities) (es : List Entity) : EventEntities :=
  { s with
      events_b := ⟨s.events_b.events ++ es, s.events_b.start_event_count⟩
      event_count := s.event_count + es.length }

/-- `EventEntities::len`. -/
def EventEntities.len (s : EventEntities) : Nat :=
  s.events_a.events.length + s.events_b.events.length

/-- `EventEntities::oldest_event_count`. -/
def EventEntities.oldest_event_count (s : EventEntities) : Nat :=
  min s.events_a.start_event_count s.events_b.start_event_count

/-- `EventEntities::update_drain`: swap the two sequences, drain what is
now `events_b` (the old `events_a`), and stamp the fresh empty newer
sequence with the current send counter.  Returns the drained elements in
order together with the state after the drain is fully consumed. -/
def EventEntities.update_drain (s : EventEntities) : List Entity × EventEntities :=
  (s.events_a.events,
   { events_a := s.events_b
     events_b := ⟨[], s.event_count⟩
     event_count := s.event_count })

/-- `EventEntities::drain`: reset both `start_event_count`s to the send
counter and empty both sequences, returning old `events_a` then old
`events_b`. -/
def EventEntities.drain (s : EventEntities) : List Entity × EventEntities :=
  (s.events_a.events ++ s.events_b.events,
   { events_a := ⟨[], s.event_count⟩
     events_b := ⟨[], s.event_count⟩
     event_count := s.event_count })

/-- `EventEntities::clear`: like `drain` but discards the elements. -/
def EventEntities.clear (s : EventEntities) : EventEntities :=
  { events_a := ⟨[], s.event_count⟩
    events_b := ⟨[], s.event_count⟩
    event_count := s.event_count }

/-- The queue invariants: the older sequence ends where the newer one
starts, and the newer sequence ends at the current send counter. -/
def EventEntities.Inv (s : EventEntities) : Prop :=
  s.events_a.start_event_count + s.events_a.events.length
      = s.events_b.start_event_count ∧
  s.events_b.start_event_count + s.events_b.events.length = s.event_count

instance (s : EventEntities) : Decidable s.Inv := by
  unfold EventEntities.Inv
  exact inferInstance

/-- The queue states reachable from the initial state via the public
operations of `EventEntities`. -/
inductive Reachable : EventEntities → Prop
  | init : Reachable EventEntities.default
  | push (s : EventEntities) (e : Entity) : Reachable s → Reachable (s.push e)
  | extendOp (s : EventEntities) (es : List Entity) :
      Reachable s → Reachable (s.extendList es)
  | updateOp (s : EventEntities) : Reachable s → Reachable s.update_drain.2
  | drainOp (s : EventEntities) : Reachable s → Reachable s.drain.2
  | clearOp (s : EventEntities) : Reachable s → Reachable s.clear

theorem reachable_inv (s : EventEntities) (h : Reachable s) : s.Inv := by
  induction h with
  | init => exact ⟨rfl, rfl⟩
  | push s e _ ih =>
      obtain ⟨h1, h2⟩ := ih
      refine ⟨h1, ?_⟩
      simp only [EventEntities.push, List.length_append, List.length_cons,
        List.length_nil]
      omega
  | extendOp s es _ ih =>
      obtain ⟨h1, h2⟩ := ih
      refine ⟨h1, ?_⟩
      simp only [EventEntities.extendList, List.length_append]
      omega
  | updateOp s _ ih =>
      obtain ⟨h1, h2⟩ := ih
      exact ⟨h2, by simp [EventEntities.update_drain]⟩
  | drainOp s _ ih => exact ⟨by simp [EventEntities.drain], by simp [EventEntities.drain]⟩
  | clearOp s _ ih => exact ⟨by simp [EventEntities.clear], by simp [EventEntities.clear]⟩

/-- C3: the equation `events_a.start_count + len(events_a) ==
events_b.start_count` holds in every state reachable from the initial
state through the public operations `push`, `extend`, `update_drain`,
`drain` and `clear`. -/
theorem c3_start_count_invariant (s : EventEntities) (h : Reachable s) :
    s.events_a.start_event_count + s.events_a.events.length
      = s.events_b.start_event_count :=
  (reachable_inv s h).1

theorem c3_start_count_invariant_witness :
    ((EventEntities.default.push 5).update_drain.2).events_a.start_event_count
        + ((EventEntities.default.push 5).update_drain.2).events_a.events.length
      = ((EventEntities.default.push 5).update_drain.2).events_b.start_event_count :=
  c3_start_count_invariant _
    (Reachable.updateOp _ (Reachable.push _ 5 Reachable.init))

/-- C7: `update_drain` makes the previous newer sequence the older one,
leaves a fresh empty newer sequence stamped with the current send
counter, returns exactly the elements (in order) of the older sequence
from immediately before the swap, and leaves the send counter
unchanged. -/
theorem c7_update_drain_spec (s : EventEntities) :
    s.update_drain.1 = s.events_a.events ∧
    s.update_drain.2.events_a = s.events_b ∧
    s.update_drain.2.events_b.events = [] ∧
    s.update_drain.2.events_b.start_event_count = s.event_count ∧
    s.update_drain.2.event_count = s.event_count :=
  ⟨rfl, rfl, rfl, rfl, rfl⟩

/-- `ManualEventReader` (src/lib.rs): a per-consumer cursor. -/
structure ManualEventReader where
  last_event_count : Nat
deriving DecidableEq

/-- `ManualEventReader::len`: `saturating_sub` is `Nat` subtraction. -/
def ManualEventReader.len (r : ManualEventReader) (s : EventEntities) : Nat :=
  min (s.event_count - r.last_event_count) s.len

/-- `EntityEventIterator` (src/lib.rs): the not-yet-yielded chain of the
two unread suffixes, the borrowed reader, and the `unread` counter. -/
structure EntityEventIterator where
  reader : ManualEventReader
  chain : List Entity
  unread : Nat
deriving DecidableEq

/-- `EntityEventIterator::new`: slice each sequence from
`last_event_count.saturating_sub(start_event_count)` (`get(i..)` with
`unwrap_or_default` is `List.drop`, which is also empty past the end),
then eagerly set the reader's cursor to `event_count - unread_count`. -/
def EntityEventIterator.new (r : ManualEventReader) (s : EventEntities) :
    EntityEventIterator :=
  let a := s.events_a.events.drop
    (r.last_event_count - s.events_a.start_event_count)
  let b := s.events_b.events.drop
    (r.last_event_count - s.events_b.start_event_count)
  let unread_count := a.length + b.length
  { reader := ⟨s.event_count - unread_count⟩
    chain := a ++ b
    unread := unread_count }

/-- `Iterator::next` for `EntityEventIterator`. -/
def EntityEventIterator.next (it : EntityEventIterator) :
    Option Entity × EntityEventIterator :=
  match it.chain with
  | [] => (none, it)
  | e :: rest =>
      (some e,
       { reader := ⟨it.reader.last_event_count + 1⟩
         chain := rest
         unread := it.unread - 1 })

/-- `Iterator::count` for `EntityEventIterator` (consumes the iterator;
only the reader survives). -/
def EntityEventIterator.countOp (it : EntityEventIterator) :
    Nat × ManualEventReader :=
  (it.unread, ⟨it.reader.last_event_count + it.unread⟩)

/-- `Iterator::last` for `EntityEventIterator`: `chain.last()?` returns
early, leaving the reader untouched, when the chain is empty. -/
def EntityEventIterator.lastOp (it : EntityEventIterator) :
    Option Entity × ManualEventReader :=
  match it.chain.getLast? with
  | none => (none, it.reader)
  | some e => (some e, ⟨it.reader.last_event_count + it.unread⟩)

/-- `Iterator::nth` for `EntityEventIterator`: on a hit, `n + 1` items
are consumed; on a miss, everything remaining is consumed. -/
def EntityEventIterator.nth (it : EntityEventIterator) (n : Nat) :
    Option Entity × EntityEventIterator :=
  match it.chain.get? n with
  | some e =>
      (some e,
       { reader := ⟨it.reader.last_event_count + n + 1⟩
         chain := it.chain.drop (n + 1)
         unread := it.unread - (n + 1) })
  | none =>
      (none,
       { reader := ⟨it.reader.last_event_count + it.unread⟩
         chain := []
         unread := 0 })

/-- One-by-one consumption: apply `next` a given number of times. -/
def EntityEventIterator.nextN : Nat → EntityEventIterator → EntityEventIterator
  | 0, it => it
  | k + 1, it => EntityEventIterator.nextN k it.next.2

theorem nextN_reader (k : Nat) (it : EntityEventIterator) :
    (EntityEventIterator.nextN k it).reader.last_event_count
      = it.reader.last_event_count + min k it.chain.length := by
  induction k generalizing it with
  | zero => simp [EntityEventIterator.nextN]
  | succ k ih =>
      cases h : it.chain with
      | nil =>
          have hnext : it.next = (none, it) := by
            simp [EntityEventIterator.next, h]
          simp [EntityEventIterator.nextN, hnext, ih, h]
      | cons x rest =>
          have hnext : it.next.2 =
              { reader := ⟨it.reader.last_event_count + 1⟩
                chain := rest
                unread := it.unread - 1 } := by
            simp [EntityEventIterator.next, h]
          rw [EntityEventIterator.nextN, hnext, ih]
          simp only [h, List.length_cons]
          omega

theorem new_chain_length (r : ManualEventReader) (s : EventEntities) :
    (EntityEventIterator.new r s).chain.length
      = (EntityEventIterator.new r s).unread := by
  simp [EntityEventIterator.new]

/-- Under the queue invariants the computed unread count agrees with
`ManualEventReader::len` (the `debug_assert_eq!` inside
`EntityEventIterator::new`). -/
theorem new_unread_eq_len (s : EventEntities) (last : Nat) (hInv : s.Inv) :
    (EntityEventIterator.new ⟨last⟩ s).unread = ManualEventReader.len ⟨last⟩ s := by
  obtain ⟨h1, h2⟩ := hInv
  simp only [EntityEventIterator.new, ManualEventReader.len, EventEntities.len,
    List.length_drop]
  rw [Nat.min_def]
  split <;> omega

theorem countOp_eq_nextN (it : EntityEventIterator)
    (hu : it.unread = it.chain.length) :
    it.countOp.2.last_event_count
      = (EntityEventIterator.nextN it.unread it).reader.last_event_count := by
  rw [nextN_reader, hu, Nat.min_self]
  simp [EntityEventIterator.countOp, hu]

theorem nth_eq_nextN (it : EntityEventIterator) (n : Nat)
    (hu : it.unread = it.chain.length) :
    (it.nth n).2.reader.last_event_count
      = (EntityEventIterator.nextN (n + 1) it).reader.last_event_count := by
  rw [nextN_reader]
  cases h : it.chain.get? n with
  | some e =>
      have hlt : n < it.chain.length := by
        rcases Nat.lt_or_ge n it.chain.length with h' | h'
        · exact h'
        · rw [List.get?_eq_none.mpr h'] at h
          cases h
      simp only [EntityEventIterator.nth, h]
      rw [Nat.min_def]
      split <;> omega
  | none =>
      have hge : it.chain.length ≤ n := List.get?_eq_none.mp h
      simp only [EntityEventIterator.nth, h]
      rw [Nat.min_def]
      split <;> omega

theorem lastOp_eq_nextN (it : EntityEventIterator)
    (hu : it.unread = it.chain.length) :
    it.lastOp.2.last_event_count
      = (EntityEventIterator.nextN it.unread it).reader.last_event_count := by
  rw [nextN_reader]
  cases h : it.chain.getLast? with
  | none =>
      have hnil : it.chain = [] := List.getLast?_eq_none_iff.mp h
      simp only [EntityEventIterator.lastOp, h]
      rw [hnil] at hu
      simp [hu]
  | some e =>
      simp only [EntityEventIterator.lastOp, h]
      rw [Nat.min_def]
      split <;> omega

/-- C2: under the queue invariants, `reader.read(queue).count()` equals
the independently computed `ManualEventReader::len` (the minimum of
`send_count - last_seen_count` and `len(a) + len(b)`), and each of the
bulk-skip operations `count`, `nth(n)` and `last` leaves the reader's
`last_seen_count` exactly where consuming the same items one by one with
`next` would — no re-delivery, no silent drops. -/
theorem c2_reader_count_and_bulk_skip (s : EventEntities) (last n : Nat)
    (hInv : s.Inv) :
    (EntityEventIterator.new ⟨last⟩ s).countOp.1
        = ManualEventReader.len ⟨last⟩ s ∧
    (EntityEventIterator.new ⟨last⟩ s).countOp.2.last_event_count
        = (EntityEventIterator.nextN (EntityEventIterator.new ⟨last⟩ s).unread
            (EntityEventIterator.new ⟨last⟩ s)).reader.last_event_count ∧
    ((EntityEventIterator.new ⟨last⟩ s).nth n).2.reader.last_event_count
        = (EntityEventIterator.nextN (n + 1)
            (EntityEventIterator.new ⟨last⟩ s)).reader.last_event_count ∧
    (EntityEventIterator.new ⟨last⟩ s).lastOp.2.last_event_count
        = (EntityEventIterator.nextN (EntityEventIterator.new ⟨last⟩ s).unread
            (EntityEventIterator.new ⟨last⟩ s)).reader.last_event_count := by
  have hu := (new_chain_length ⟨last⟩ s).symm
  exact ⟨new_unread_eq_len s last hInv, countOp_eq_nextN _ hu,
    nth_eq_nextN _ n hu, lastOp_eq_nextN _ hu⟩

theorem c2_reader_count_and_bulk_skip_witness :
    (⟨⟨[10, 11], 0⟩, ⟨[12], 2⟩, 3⟩ : EventEntities).Inv ∧
    ((EntityEventIterator.new ⟨1⟩ ⟨⟨[10, 11], 0⟩, ⟨[12], 2⟩, 3⟩).countOp.1
        = ManualEventReader.len ⟨1⟩ ⟨⟨[10, 11], 0⟩, ⟨[12], 2⟩, 3⟩ ∧
      (EntityEventIterator.new ⟨1⟩ ⟨⟨[10, 11], 0⟩, ⟨[12], 2⟩, 3⟩).countOp.2.last_event_count
        = (EntityEventIterator.nextN
            (EntityEventIterator.new ⟨1⟩ ⟨⟨[10, 11], 0⟩, ⟨[12], 2⟩, 3⟩).unread
            (EntityEventIterator.new ⟨1⟩ ⟨⟨[10, 11], 0⟩, ⟨[12], 2⟩, 3⟩)).reader.last_event_count ∧
      ((EntityEventIterator.new ⟨1⟩ ⟨⟨[10, 11], 0⟩, ⟨[12], 2⟩, 3⟩).nth 1).2.reader.last_event_count
        = (EntityEventIterator.nextN (1 + 1)
            (EntityEventIterator.new ⟨1⟩ ⟨⟨[10, 11], 0⟩, ⟨[12], 2⟩, 3⟩)).reader.last_event_count ∧
      (EntityEventIterator.new ⟨1⟩ ⟨⟨[10, 11], 0⟩, ⟨[12], 2⟩, 3⟩).lastOp.2.last_event_count
        = (EntityEventIterator.nextN
            (EntityEventIterator.new ⟨1⟩ ⟨⟨[10, 11], 0⟩, ⟨[12], 2⟩, 3⟩).unread
            (EntityEventIterator.new ⟨1⟩ ⟨⟨[10, 11], 0⟩, ⟨[12], 2⟩, 3⟩)).reader.last_event_count) :=
  ⟨by decide, c2_reader_count_and_bulk_skip ⟨⟨[10, 11], 0⟩, ⟨[12], 2⟩, 3⟩ 1 1 (by decide)⟩

/-- C9: a cursor that predates the oldest retained `start_count` is
clamped rather than underflowing: the iterator's chain is the whole
retained content (so exactly `min(send_count - last_seen_count, len)`
events, which here is all of `len`), the `event_count - unread`
subtraction cannot underflow, and the cursor is set to the oldest
retained position. -/
theorem c9_reader_underflow_clamped (s : EventEntities) (last : Nat)
    (hInv : s.Inv) (hbehind : last < s.oldest_event_count) :
    (EntityEventIterator.new ⟨last⟩ s).chain
        = s.events_a.events ++ s.events_b.events ∧
    (EntityEventIterator.new ⟨last⟩ s).unread
        = min (s.event_count - last) s.len ∧
    (EntityEventIterator.new ⟨last⟩ s).unread = s.len ∧
    (EntityEventIterator.new ⟨last⟩ s).unread ≤ s.event_count ∧
    (EntityEventIterator.new ⟨last⟩ s).reader.last_event_count
        = s.oldest_event_count := by
  obtain ⟨h1, h2⟩ := hInv
  have hoa : last ≤ s.events_a.start_event_count := by
    have := hbehind
    simp only [EventEntities.oldest_event_count] at this
    omega
  have hob : last ≤ s.events_b.start_event_count := by
    have := hbehind
    simp only [EventEntities.oldest_event_count] at this
    omega
  have hda : last - s.events_a.start_event_count = 0 := by omega
  have hdb : last - s.events_b.start_event_count = 0 := by omega
  refine ⟨?_, ?_, ?_, ?_, ?_⟩
  · simp [EntityEventIterator.new, hda, hdb]
  · simp only [EntityEventIterator.new, List.length_drop, EventEntities.len]
    rw [Nat.min_def]
    split <;> omega
  · simp only [EntityEventIterator.new, List.length_drop, EventEntities.len]
    omega
  · simp only [EntityEventIterator.new, List.length_drop]
    omega
  · simp only [EntityEventIterator.new, List.length_drop,
      EventEntities.oldest_event_count]
    rw [Nat.min_def]
    split <;> omega

theorem c9_reader_underflow_clamped_witness :
    ((⟨⟨[10, 11], 4⟩, ⟨[12], 6⟩, 7⟩ : EventEntities).Inv ∧
      (1 : Nat) < (⟨⟨[10, 11], 4⟩, ⟨[12], 6⟩, 7⟩ : EventEntities).oldest_event_count) ∧
    ((EntityEventIterator.new ⟨1⟩ ⟨⟨[10, 11], 4⟩, ⟨[12], 6⟩, 7⟩).chain
        = [10, 11] ++ [12] ∧
      (EntityEventIterator.new ⟨1⟩ ⟨⟨[10, 11], 4⟩, ⟨[12], 6⟩, 7⟩).unread
        = min (7 - 1) (⟨⟨[10, 11], 4⟩, ⟨[12], 6⟩, 7⟩ : EventEntities).len ∧
      (EntityEventIterator.new ⟨1⟩ ⟨⟨[10, 11], 4⟩, ⟨[12], 6⟩, 7⟩).unread
        = (⟨⟨[10, 11], 4⟩, ⟨[12], 6⟩, 7⟩ : EventEntities).len ∧
      (EntityEventIterator.new ⟨1⟩ ⟨⟨[10, 11], 4⟩, ⟨[12], 6⟩, 7⟩).unread ≤ 7 ∧
      (EntityEventIterator.new ⟨1⟩ ⟨⟨[10, 11], 4⟩, ⟨[12], 6⟩, 7⟩).reader.last_event_count
        = (⟨⟨[10, 11], 4⟩, ⟨[12], 6⟩, 7⟩ : EventEntities).oldest_event_count) :=
  ⟨⟨by decide, by decide⟩,
    c9_reader_underflow_clamped ⟨⟨[10, 11], 4⟩, ⟨[12], 6⟩, 7⟩ 1 (by decide) (by decide)⟩

/-- C10: merely constructing the iterator sets the cursor to
`send_count - unread` before anything is yielded: the new cursor plus
the unread count is exactly `send_count` (no truncation), and the new
cursor equals `max last_seen_count oldest_retained` — a cursor behind
the retained history is advanced past the reclaimed events, a cursor
within retained history is left unchanged. -/
theorem c10_new_sets_cursor (s : EventEntities) (last : Nat)
    (hInv : s.Inv) (hle : last ≤ s.event_count) :
    (EntityEventIterator.new ⟨last⟩ s).reader.last_event_count
        = max last s.oldest_event_count ∧
    (EntityEventIterator.new ⟨last⟩ s).reader.last_event_count
        + (EntityEventIterator.new ⟨last⟩ s).unread = s.event_count := by
  obtain ⟨h1, h2⟩ := hInv
  constructor
  · simp only [EntityEventIterator.new, List.length_drop,
      EventEntities.oldest_event_count]
    rw [Nat.min_def, Nat.max_def]
    split <;> split <;> omega
  · simp only [EntityEventIterator.new, List.length_drop]
    omega

theorem c10_new_sets_cursor_witness :
    ((⟨⟨[10, 11], 4⟩, ⟨[12], 6⟩, 7⟩ : EventEntities).Inv ∧
      (5 : Nat) ≤ (⟨⟨[10, 11], 4⟩, ⟨[12], 6⟩, 7⟩ : EventEntities).event_count) ∧
    ((EntityEventIterator.new ⟨5⟩ ⟨⟨[10, 11], 4⟩, ⟨[12], 6⟩, 7⟩).reader.last_event_count
        = max 5 (⟨⟨[10, 11], 4⟩, ⟨[12], 6⟩, 7⟩ : EventEntities).oldest_event_count ∧
      (EntityEventIterator.new ⟨5⟩ ⟨⟨[10, 11], 4⟩, ⟨[12], 6⟩, 7⟩).reader.last_event_count
        + (EntityEventIterator.new ⟨5⟩ ⟨⟨[10, 11], 4⟩, ⟨[12], 6⟩, 7⟩).unread = 7) :=
  ⟨⟨by decide, by decide⟩,
    c10_new_sets_cursor ⟨⟨[10, 11], 4⟩, ⟨[12], 6⟩, 7⟩ 5 (by decide) (by decide)⟩

/-- A sequence of `push` calls (`send` + `send_batch` enqueue through
`push`/`extend`, both appending to `events_b` and counting each item). -/
def pushMany (q : EventEntities) (es : List Entity) : EventEntities :=
  es.foldl EventEntities.push q

/-- One `send_event` call (src/lib.rs `send_event`): spawn a fresh
entity — it now exists in the world, modelled as the head of the live
list — and push its id onto the queue. -/
def sendStep (st : List Entity × EventEntities) (e : Entity) :
    List Entity × EventEntities :=
  (e :: st.1, st.2.push e)

/-- One advance cycle (src/lib.rs `update_events`): `update_drain` the
queue and have the host despawn every entity the drain returned. -/
def advanceStep (st : List Entity × EventEntities) :
    List Entity × EventEntities :=
  (st.1.filter (fun x => decide (x ∉ st.2.update_drain.1)),
   st.2.update_drain.2)

theorem sendFold_snd (es : List Entity) (st : List Entity × EventEntities) :
    (es.foldl sendStep st).2 = pushMany st.2 es := by
  induction es generalizing st with
  | nil => rfl
  | cons e es ih => exact ih (sendStep st e)

theorem pushMany_spec (es : List Entity) (q : EventEntities) :
    (pushMany q es).events_a = q.events_a ∧
    (pushMany q es).events_b.events = q.events_b.events ++ es ∧
    (pushMany q es).events_b.start_event_count
        = q.events_b.start_event_count ∧
    (pushMany q es).event_count = q.event_count + es.length := by
  induction es generalizing q with
  | nil => simp [pushMany]
  | cons e es ih =>
      have h := ih (q.push e)
      have hstep : pushMany q (e :: es) = pushMany (q.push e) es := rfl
      rw [hstep]
      refine ⟨h.1.trans rfl, ?_, h.2.2.1.trans rfl, ?_⟩
      · rw [h.2.1]
        simp [EventEntities.push]
      · rw [h.2.2.2]
        simp only [EventEntities.push, List.length_cons]
        omega

theorem mem_drop_append {a : Entity} {l₁ l₂ : List Entity} {n : Nat}
    (h : n ≤ l₁.length) (ha : a ∈ l₂) : a ∈ (l₁ ++ l₂).drop n := by
  rw [List.drop_append_of_le_length h]
  exact List.mem_append_right _ ha

theorem mem_advanceStep {x : Entity} {st : List Entity × EventEntities} :
    x ∈ (advanceStep st).1 ↔ x ∈ st.1 ∧ x ∉ st.2.update_drain.1 := by
  simp [advanceStep, List.mem_filter]

/-- C1: two-cycle retention.  Send `e` into a queue satisfying the
invariants, then interleave arbitrary further sends (`xs`), the first
advance (with the host despawning what it drains), further sends (`ys`)
and the second advance.  Then: `e` is still in the queue after the first
advance, any reader whose cursor predates the send sees `e` both before
and after the first advance, the drain of the second advance produces
`e`, and after the host processes that drain `e` no longer exists. -/
theorem c1_send_visible_then_reclaimed
    (q : EventEntities) (live : List Entity) (e : Entity)
    (xs ys : List Entity) (last : Nat)
    (hInv : q.Inv) (hlast : last ≤ q.event_count) :
    e ∈ ((xs.foldl sendStep (sendStep (live, q) e)).2.update_drain.2).events_a.events ∧
    e ∈ (EntityEventIterator.new ⟨last⟩
          (xs.foldl sendStep (sendStep (live, q) e)).2).chain ∧
    e ∈ (EntityEventIterator.new ⟨last⟩
          ((xs.foldl sendStep (sendStep (live, q) e)).2.update_drain.2)).chain ∧
    e ∈ (ys.foldl sendStep
          (advanceStep (xs.foldl sendStep (sendStep (live, q) e)))).2.update_drain.1 ∧
    e ∉ (advanceStep (ys.foldl sendStep
          (advanceStep (xs.foldl sendStep (sendStep (live, q) e))))).1 := by
  obtain ⟨hab, hbc⟩ := hInv
  have h2 : (xs.foldl sendStep (sendStep (live, q) e)).2
      = pushMany (q.push e) xs := sendFold_snd xs _
  obtain ⟨ha2, hb2, hsb2, hc2⟩ := pushMany_spec xs (q.push e)
  have hbpush : (q.push e).events_b.events = q.events_b.events ++ [e] := rfl
  have hbevents : (pushMany (q.push e) xs).events_b.events
      = q.events_b.events ++ (e :: xs) := by
    rw [hb2, hbpush, List.append_assoc]
    rfl
  have hdropb : last - (q.push e).events_b.start_event_count
      ≤ q.events_b.events.length := by
    have : (q.push e).events_b.start_event_count
        = q.events_b.start_event_count := rfl
    omega
  have hmemb : e ∈ (pushMany (q.push e) xs).events_b.events := by
    rw [hbevents]
    exact List.mem_append_right _ (List.mem_cons_self e xs)
  have hchain2 : e ∈ (EntityEventIterator.new ⟨last⟩
      (pushMany (q.push e) xs)).chain := by
    simp only [EntityEventIterator.new]
    refine List.mem_append_right _ ?_
    rw [hbevents, hsb2]
    exact mem_drop_append hdropb (List.mem_cons_self e xs)
  have hmema3 : e ∈ ((pushMany (q.push e) xs).update_drain.2).events_a.events := by
    simpa [EventEntities.update_drain] using hmemb
  have hchain3 : e ∈ (EntityEventIterator.new ⟨last⟩
      ((pushMany (q.push e) xs).update_drain.2)).chain := by
    simp only [EntityEventIterator.new, EventEntities.update_drain]
    refine List.mem_append_left _ ?_
    rw [hbevents, hsb2]
    exact mem_drop_append hdropb (List.mem_cons_self e xs)
  have hst3 : (advanceStep (xs.foldl sendStep (sendStep (live, q) e))).2
      = (pushMany (q.push e) xs).update_drain.2 := by
    rw [advanceStep, h2]
  have h4 : (ys.foldl sendStep
      (advanceStep (xs.foldl sendStep (sendStep (live, q) e)))).2
      = pushMany ((pushMany (q.push e) xs).update_drain.2) ys := by
    rw [sendFold_snd, hst3]
  have hdrain2 : e ∈ (ys.foldl sendStep
      (advanceStep (xs.foldl sendStep (sendStep (live, q) e)))).2.update_drain.1 := by
    rw [h4]
    have := (pushMany_spec ys ((pushMany (q.push e) xs).update_drain.2)).1
    show e ∈ (pushMany ((pushMany (q.push e) xs).update_drain.2) ys).events_a.events
    rw [this]
    exact hmema3
  refine ⟨by rw [h2]; exact hmema3, by rw [h2]; exact hchain2,
    by rw [h2]; exact hchain3, hdrain2, ?_⟩
  intro hmem
  exact (mem_advanceStep.mp hmem).2 hdrain2

theorem c1_send_visible_then_reclaimed_witness :
    ((⟨⟨[1], 0⟩, ⟨[2], 1⟩, 2⟩ : EventEntities).Inv ∧
      (1 : Nat) ≤ (⟨⟨[1], 0⟩, ⟨[2], 1⟩, 2⟩ : EventEntities).event_count) ∧
    (5 ∈ (([6].foldl sendStep
            (sendStep ([1, 2], ⟨⟨[1], 0⟩, ⟨[2], 1⟩, 2⟩) 5)).2.update_drain.2).events_a.events ∧
      5 ∈ (EntityEventIterator.new ⟨1⟩
            ([6].foldl sendStep (sendStep ([1, 2], ⟨⟨[1], 0⟩, ⟨[2], 1⟩, 2⟩) 5)).2).chain ∧
      5 ∈ (EntityEventIterator.new ⟨1⟩
            (([6].foldl sendStep
              (sendStep ([1, 2], ⟨⟨[1], 0⟩, ⟨[2], 1⟩, 2⟩) 5)).2.update_drain.2)).chain ∧
      5 ∈ ([7].foldl sendStep
            (advanceStep ([6].foldl sendStep
              (sendStep ([1, 2], ⟨⟨[1], 0⟩, ⟨[2], 1⟩, 2⟩) 5)))).2.update_drain.1 ∧
      5 ∉ (advanceStep ([7].foldl sendStep
            (advanceStep ([6].foldl sendStep
              (sendStep ([1, 2], ⟨⟨[1], 0⟩, ⟨[2], 1⟩, 2⟩) 5))))).1) :=
  ⟨⟨by decide, by decide⟩,
    c1_send_visible_then_reclaimed ⟨⟨[1], 0⟩, ⟨[2], 1⟩, 2⟩ [1, 2] 5 [6] [7] 1
      (by decide) (by decide)⟩

/-!
Listener dispatch engine (src/event_listener.rs and
crates/event_listener/src/lib.rs).  The ECS world is abstracted to the
store operations the engine uses: entity liveness, the `Target`
component and the presence of the callback component.  (The
`ListenerInput` resource bookkeeping is not modelled; no claim touches
it.)  A callback body is an arbitrary world transformer.
-/

/-- `EventType` (event_listener.rs). -/
inductive EventType where
  | Propagated (propagated : Entity) (event : Entity)
  | Event (event : Entity)
deriving DecidableEq

/-- `EventType::id`. -/
def EventType.id : EventType → Entity
  | .Propagated _ e => e
  | .Event e => e

/-- The slice of the ECS world the dispatch engine reads and writes. -/
structure World where
  contains : Entity → Bool
  target : Entity → Option Entity
  hasCallback : Entity → Bool

/-- `insert::<Target>` / overwrite of a `Target` component. -/
def World.setTarget (w : World) (x : Entity) (t : Option Entity) : World :=
  { w with target := fun y => if y = x then t else w.target y }

/-- `take::<CallbackSystem>` on success: the component is removed. -/
def World.removeCallback (w : World) (c : Entity) : World :=
  { w with hasCallback := fun y => if y = c then false else w.hasCallback y }

/-- `insert(callback)`: the component is put back. -/
def World.insertCallback (w : World) (c : Entity) : World :=
  { w with hasCallback := fun y => if y = c then true else w.hasCallback y }

/-- A component can only sit on an existing entity. -/
def World.Coherent (w : World) : Prop :=
  ∀ x, w.hasCallback x = true → w.contains x = true

/-- `EventType::entities_contains`. -/
def EventType.entities_contains (ev : EventType) (w : World) : Bool :=
  match ev with
  | .Propagated p e => w.contains p && w.contains e
  | .Event e => w.contains e

/-- `EventType::swap_target`: for a propagated event whose two entities
are live, swap the values inside their `Target` components (a no-op
unless both carry one); `none` models the `assert_ne!` panic when the
derivative and the root are the same entity.  For a plain event this
does nothing and reports `false`. -/
def EventType.swap_target (ev : EventType) (w : World) :
    Option (World × Bool) :=
  match ev with
  | .Propagated p e =>
      if ev.entities_contains w then
        if p = e then none
        else
          match w.target p, w.target e with
          | some tp, some te =>
              some ((w.setTarget p (some te)).setTarget e (some tp), true)
          | _, _ => some (w, false)
      else some (w, false)
  | .Event _ => some (w, false)

/-- The deferred closure cannot hit the `assert_ne!` when the event is
not a self-referential propagation. -/
def EventType.noSelfProp : EventType → Prop
  | .Propagated p e => p ≠ e
  | .Event _ => True

/-- `world.get_entity_mut(cb).and_then(|c| c.take::<CallbackSystem>())`:
succeeds iff the owner exists and carries the callback component, and
removes the component. -/
def takeCallback (w : World) (cb : Entity) : Option World :=
  if w.contains cb && w.hasCallback cb then some (w.removeCallback cb)
  else none

/-- The deferred closure queued by `run_callbacks`
(src/event_listener.rs): bail out silently if the event no longer
exists, take the callback off its owner (bail out silently if that
fails), swap the propagated target in, run the callback body against
the full world, swap the target back, and reinsert the callback onto
its owner only if the owner still exists.  `none` models a panic. -/
def deferredAction (event : EventType) (cb : Entity)
    (body : World → World) (w : World) : Option World :=
  if event.entities_contains w then
    match takeCallback w cb with
    | none => some w
    | some w1 =>
        match event.swap_target w1 with
        | none => none
        | some (w2, _) =>
            match event.swap_target (body w2) with
            | none => none
            | some (w4, _) =>
                some (if w4.contains cb then w4.insertCallback cb else w4)
  else some w

theorem swap_target_preserves (ev : EventType) (w : World) (r : World × Bool)
    (h : ev.swap_target w = some r) :
    r.1.contains = w.contains ∧ r.1.hasCallback = w.hasCallback := by
  cases ev with
  | Event e =>
      simp only [EventType.swap_target] at h
      injection h with h
      rw [← h]
      exact ⟨rfl, rfl⟩
  | Propagated p e =>
      simp only [EventType.swap_target] at h
      split at h
      · split at h
        · cases h
        · split at h
          · injection h with h
            rw [← h]
            exact ⟨rfl, rfl⟩
          · injection h with h
            rw [← h]
            exact ⟨rfl, rfl⟩
      · injection h with h
        rw [← h]
        exact ⟨rfl, rfl⟩

theorem swap_target_isSome (ev : EventType) (w : World) (hns : ev.noSelfProp) :
    ∃ r, ev.swap_target w = some r := by
  cases ev with
  | Event e => exact ⟨(w, false), rfl⟩
  | Propagated p e =>
      have hne : p ≠ e := hns
      by_cases hc : (EventType.Propagated p e).entities_contains w = true
      · cases h1 : w.target p with
        | none => exact ⟨(w, false), by simp [EventType.swap_target, hc, hne, h1]⟩
        | some tp =>
            cases h2 : w.target e with
            | none =>
                exact ⟨(w, false), by simp [EventType.swap_target, hc, hne, h1, h2]⟩
            | some te =>
                exact ⟨((w.setTarget p (some te)).setTarget e (some tp), true),
                  by simp [EventType.swap_target, hc, hne, h1, h2]⟩
      · exact ⟨(w, false), by simp [EventType.swap_target, hc]⟩

/-- C8: for a propagated event with distinct live derivative `p` and
root `e`, both carrying a `Target`: one `swap_target` makes the root's
`Target` hold the derivative's target (and vice versa, all other
entities untouched), and a second `swap_target` restores every entity's
`Target` to its original value; a non-propagated event is never
changed. -/
theorem c8_swap_target_involution (w : World) (p e tp te : Entity)
    (hpe : p ≠ e) (hp : w.contains p = true) (he : w.contains e = true)
    (htp : w.target p = some tp) (hte : w.target e = some te) :
    (∀ x : Entity, EventType.swap_target (.Event x) w = some (w, false)) ∧
    ∃ w1, EventType.swap_target (.Propagated p e) w = some (w1, true) ∧
      w1.target e = some tp ∧ w1.target p = some te ∧
      (∀ x, x ≠ p → x ≠ e → w1.target x = w.target x) ∧
      ∃ w2, EventType.swap_target (.Propagated p e) w1 = some (w2, true) ∧
        (∀ x, w2.target x = w.target x) ∧
        (∀ x, w2.contains x = w.contains x) := by
  have hcont : (EventType.Propagated p e).entities_contains w = true := by
    simp [EventType.entities_contains, hp, he]
  refine ⟨fun x => rfl, (w.setTarget p (some te)).setTarget e (some tp), ?_, ?_, ?_, ?_, ?_⟩
  · simp [EventType.swap_target, hcont, hpe, htp, hte]
  · simp [World.setTarget]
  · simp [World.setTarget, hpe, Ne.symm hpe]
  · intro x hxp hxe
    simp [World.setTarget, hxp, hxe]
  · set w1 := (w.setTarget p (some te)).setTarget e (some tp) with hw1
    have h1p : w1.target p = some te := by
      simp [hw1, World.setTarget, hpe, Ne.symm hpe]
    have h1e : w1.target e = some tp := by
      simp [hw1, World.setTarget]
    have hcont1 : (EventType.Propagated p e).entities_contains w1 = true := hcont
    refine ⟨(w1.setTarget p (some tp)).setTarget e (some te), ?_, ?_, fun x => rfl⟩
    · simp [EventType.swap_target, hcont1, hpe, h1p, h1e]
    · intro x
      by_cases hxe : x = e
      · subst hxe
        simp [World.setTarget, hte]
      · by_cases hxp : x = p
        · subst hxp
          simp [World.setTarget, hpe, htp]
        · simp [hw1, World.setTarget, hxe, hxp]

def swapWitnessWorld : World :=
  { contains := fun _ => true
    target := fun x => if x = 1 then some 5 else if x = 2 then some 6 else none
    hasCallback := fun _ => false }

theorem c8_swap_target_involution_witness :
    ((1 : Entity) ≠ 2 ∧ swapWitnessWorld.contains 1 = true ∧
      swapWitnessWorld.contains 2 = true ∧
      swapWitnessWorld.target 1 = some 5 ∧ swapWitnessWorld.target 2 = some 6) ∧
    ((∀ x : Entity,
        EventType.swap_target (.Event x) swapWitnessWorld
          = some (swapWitnessWorld, false)) ∧
      ∃ w1, EventType.swap_target (.Propagated 1 2) swapWitnessWorld
          = some (w1, true) ∧
        w1.target 2 = some 5 ∧ w1.target 1 = some 6 ∧
        (∀ x, x ≠ 1 → x ≠ 2 → w1.target x = swapWitnessWorld.target x) ∧
        ∃ w2, EventType.swap_target (.Propagated 1 2) w1 = some (w2, true) ∧
          (∀ x, w2.target x = swapWitnessWorld.target x) ∧
          (∀ x, w2.contains x = swapWitnessWorld.contains x)) :=
  ⟨⟨by decide, rfl, rfl, rfl, rfl⟩,
    c8_swap_target_involution swapWitnessWorld 1 2 5 6 (by decide) rfl rfl rfl rfl⟩

theorem removeCallback_hasCallback (w : World) (cb : Entity) :
    (w.removeCallback cb).hasCallback cb = false := by
  simp [World.removeCallback]

theorem removeCallback_eq_self (w : World) (cb : Entity)
    (h : w.hasCallback cb = false) : w.removeCallback cb = w := by
  have hf : (fun y => if y = cb then false else w.hasCallback y)
      = w.hasCallback := by
    funext y
    by_cases hy : y = cb
    · rw [if_pos hy, hy, h]
    · rw [if_neg hy]
  unfold World.removeCallback
  rw [hf]

theorem removeCallback_coherent (w : World) (cb : Entity) (h : w.Coherent) :
    (w.removeCallback cb).Coherent := by
  intro x hx
  by_cases hxc : x = cb
  · subst hxc
    rw [removeCallback_hasCallback] at hx
    cases hx
  · have hpass : (w.removeCallback cb).hasCallback x = w.hasCallback x := by
      simp [World.removeCallback, hxc]
    rw [hpass] at hx
    exact h x hx

theorem coherent_of_fields (w w' : World) (hc : w'.contains = w.contains)
    (hh : w'.hasCallback = w.hasCallback) (h : w.Coherent) : w'.Coherent := by
  intro x hx
  rw [hh] at hx
  rw [hc]
  exact h x hx

theorem deferredAction_run (event : EventType) (cb : Entity)
    (body : World → World) (w : World)
    (hev : event.entities_contains w = true)
    (hcb : w.contains cb = true) (hhas : w.hasCallback cb = true)
    (hns : event.noSelfProp) :
    ∃ w2 b2 w4 b4,
      event.swap_target (w.removeCallback cb) = some (w2, b2) ∧
      event.swap_target (body w2) = some (w4, b4) ∧
      deferredAction event cb body w
        = some (if w4.contains cb then w4.insertCallback cb else w4) := by
  obtain ⟨⟨w2, b2⟩, h2⟩ := swap_target_isSome event (w.removeCallback cb) hns
  obtain ⟨⟨w4, b4⟩, h4⟩ := swap_target_isSome event (body w2) hns
  refine ⟨w2, b2, w4, b4, h2, h4, ?_⟩
  have htake : takeCallback w cb = some (w.removeCallback cb) := by
    simp [takeCallback, hcb, hhas]
  simp only [deferredAction, hev, if_true, htake, h2, h4]

/-- C4: the deferred dispatch closure removes the callback component
from its owner before running the callback body, the body executes
against a world in which that component is absent (so the body cannot
observe itself — removing it again is a no-op for any body), and the
component ends up back on the owner exactly when the owner still exists
after the body (and its deferred effects) ran. -/
theorem c4_take_then_reinsert (event : EventType) (cb : Entity)
    (body : World → World) (w : World)
    (hco : w.Coherent) (hbody : ∀ w', w'.Coherent → (body w').Coherent)
    (hev : event.entities_contains w = true)
    (hcb : w.contains cb = true) (hhas : w.hasCallback cb = true)
    (hns : event.noSelfProp) :
    (deferredAction event cb body w).isSome = true ∧
    deferredAction event cb body w
      = deferredAction event cb (fun wm => body (wm.removeCallback cb)) w ∧
    ∀ w', deferredAction event cb body w = some w' →
      w'.hasCallback cb = w'.contains cb := by
  obtain ⟨w2, b2, w4, b4, h2, h4, hrun⟩ :=
    deferredAction_run event cb body w hev hcb hhas hns
  have hpres2 := swap_target_preserves event (w.removeCallback cb) (w2, b2) h2
  have hpres4 := swap_target_preserves event (body w2) (w4, b4) h4
  have hw2cb : w2.hasCallback cb = false := by
    rw [congrFun hpres2.2 cb, removeCallback_hasCallback]
  have hbody_eq : body (w2.removeCallback cb) = body w2 := by
    rw [removeCallback_eq_self w2 cb hw2cb]
  have hcoh4 : w4.Coherent := by
    refine coherent_of_fields (body w2) w4 hpres4.1 hpres4.2 ?_
    refine hbody w2 ?_
    exact coherent_of_fields (w.removeCallback cb) w2 hpres2.1 hpres2.2
      (removeCallback_coherent w cb hco)
  refine ⟨by rw [hrun]; rfl, ?_, ?_⟩
  · obtain ⟨w2', b2', w4', b4', h2', h4', hrun'⟩ :=
      deferredAction_run event cb (fun wm => body (wm.removeCallback cb)) w
        hev hcb hhas hns
    have hinj2 := h2'.symm.trans h2
    injection hinj2 with hinj2
    injection hinj2 with hw2e hb2e
    subst hw2e
    rw [hbody_eq] at h4'
    have hinj4 := h4'.symm.trans h4
    injection hinj4 with hinj4
    injection hinj4 with hw4e hb4e
    subst hw4e
    rw [hrun, hrun']
  · intro w' hw'
    rw [hrun] at hw'
    injection hw' with hww
    cases hc4 : w4.contains cb with
    | false =>
        rw [hc4] at hww
        simp only [Bool.false_eq_true, if_false] at hww
        rw [← hww, hc4]
        cases hhcb : w4.hasCallback cb with
        | false => rfl
        | true =>
            have hcon := hcoh4 cb hhcb
            rw [hc4] at hcon
            cases hcon
    | true =>
        rw [hc4] at hww
        simp only [if_true] at hww
        rw [← hww]
        have h1 : (w4.insertCallback cb).hasCallback cb = true := by
          simp [World.insertCallback]
        have h2c : (w4.insertCallback cb).contains cb = true := hc4
        rw [h1, h2c]

def takeWitnessWorld : World :=
  { contains := fun _ => true
    target := fun _ => none
    hasCallback := fun x => x == 3 }

theorem c4_take_then_reinsert_witness :
    (takeWitnessWorld.Coherent ∧
      EventType.entities_contains (.Propagated 1 2) takeWitnessWorld = true ∧
      takeWitnessWorld.contains 3 = true ∧
      takeWitnessWorld.hasCallback 3 = true) ∧
    ((deferredAction (.Propagated 1 2) 3 (fun w => w) takeWitnessWorld).isSome
        = true ∧
      deferredAction (.Propagated 1 2) 3 (fun w => w) takeWitnessWorld
        = deferredAction (.Propagated 1 2) 3
            (fun wm => (fun w => w) (wm.removeCallback 3)) takeWitnessWorld ∧
      ∀ w', deferredAction (.Propagated 1 2) 3 (fun w => w) takeWitnessWorld
          = some w' → w'.hasCallback 3 = w'.contains 3) :=
  ⟨⟨fun _ _ => rfl, rfl, rfl, rfl⟩,
    c4_take_then_reinsert (.Propagated 1 2) 3 (fun w => w) takeWitnessWorld
      (fun _ _ => rfl) (fun _ h => h) rfl rfl rfl (by decide : (1 : Entity) ≠ 2)⟩

/-!
Fault handling of the crates/event_listener `run_callbacks` closure: the
`catch_unwind` result is matched and, on a caught panic, the closure
calls `panic!` again with a message naming the callback system, the
callback owner entity, the event and the resolved target.
-/

/-- The context the decorated panic message carries. -/
structure Fault where
  sysName : String
  callback : Entity
  event : EventType
  target : Option Entity
deriving DecidableEq

/-- A panic escaping a deferred closure: either the bare `assert_ne!`
panic inside `swap_target`, or the decorated re-panic after
`catch_unwind` caught a callback fault. -/
inductive Panic where
  | assertNe : Panic
  | callbackFault (f : Fault) : Panic
deriving DecidableEq

/-- The deferred closure of the crates/event_listener `run_callbacks`
(with `catch_unwind`): like `deferredAction`, but the callback body may
itself panic, in which case the closure re-panics with the decorated
message (callback system name, owner entity, event, resolved target). -/
def deferredActionCatch (sysName : String) (event : EventType) (cb : Entity)
    (tgt : Option Entity) (body : World → Except Unit World) (w : World) :
    Except Panic World :=
  if event.entities_contains w then
    match takeCallback w cb with
    | none => .ok w
    | some w1 =>
        match event.swap_target w1 with
        | none => .error .assertNe
        | some (w2, _) =>
            match body w2 with
            | .error _ => .error (.callbackFault ⟨sysName, cb, event, tgt⟩)
            | .ok w3 =>
                match event.swap_target w3 with
                | none => .error .assertNe
                | some (w4, _) =>
                    .ok (if w4.contains cb then w4.insertCallback cb else w4)
  else .ok w

/-- `CommandQueue::apply`: run the queued closures in order; a panic in
one closure propagates and the rest never run. -/
def applyQueue (acts : List (World → Except Panic World)) (w : World) :
    Except Panic World :=
  match acts with
  | [] => .ok w
  | a :: rest =>
      match a w with
      | .error p => .error p
      | .ok w' => applyQueue rest w'

def faultWitnessWorld : World :=
  { contains := fun _ => true
    target := fun _ => none
    hasCallback := fun x => x == 3 || x == 4 }

/-- C5 counterexample: a pass whose first queued callback panics.  The
whole pass aborts with the re-raised decorated panic — the second queued
action (which would mark entity 9 with a callback component) never runs
and no world is produced at all, refuting "the remaining matched
candidates ... still execute; the fault does not abort the pass". -/
theorem c5_fault_aborts_pass_counterexample :
    applyQueue
        [deferredActionCatch "cb_sys" (.Event 1) 3 (some 1)
            (fun _ => .error ()),
         fun w => .ok (w.insertCallback 9)]
        faultWitnessWorld
      = .error (.callbackFault ⟨"cb_sys", 3, .Event 1, some 1⟩) := rfl

/-- C5 as amended: when a callback invocation panics, the fault is
reported together with the callback system's name, the event, the
callback-owner entity and the resolved target (they are exactly the
payload of the decorated panic), but the pass is aborted: the closure
re-raises, and no matter what other actions are still queued behind it,
none of them runs and the whole `apply` ends in that panic. -/
theorem c5_fault_reported_with_context (sysName : String) (event : EventType)
    (cb : Entity) (tgt : Option Entity) (body : World → Except Unit World)
    (w : World) (rest : List (World → Except Panic World))
    (hev : event.entities_contains w = true)
    (hcb : w.contains cb = true) (hhas : w.hasCallback cb = true)
    (hns : event.noSelfProp)
    (hbody : ∀ w', body w' = .error ()) :
    deferredActionCatch sysName event cb tgt body w
        = .error (.callbackFault ⟨sysName, cb, event, tgt⟩) ∧
    ∀ w0, applyQueue (deferredActionCatch sysName event cb tgt body :: rest) w
        = applyQueue (deferredActionCatch sysName event cb tgt body :: [fun _ => .ok w0]) w := by
  have htake : takeCallback w cb = some (w.removeCallback cb) := by
    simp [takeCallback, hcb, hhas]
  obtain ⟨⟨w2, b2⟩, h2⟩ := swap_target_isSome event (w.removeCallback cb) hns
  have hact : deferredActionCatch sysName event cb tgt body w
      = .error (.callbackFault ⟨sysName, cb, event, tgt⟩) := by
    simp only [deferredActionCatch, hev, if_true, htake, h2, hbody]
  refine ⟨hact, fun w0 => ?_⟩
  simp only [applyQueue, hact]

theorem c5_fault_reported_with_context_witness :
    (EventType.entities_contains (.Event 1) faultWitnessWorld = true ∧
      faultWitnessWorld.contains 3 = true ∧
      faultWitnessWorld.hasCallback 3 = true) ∧
    (deferredActionCatch "cb_sys" (.Event 1) 3 (some 1)
          (fun _ => .error ()) faultWitnessWorld
        = .error (.callbackFault ⟨"cb_sys", 3, .Event 1, some 1⟩) ∧
      ∀ w0, applyQueue
          (deferredActionCatch "cb_sys" (.Event 1) 3 (some 1)
              (fun _ => .error ()) :: [fun w => .ok (w.insertCallback 9)])
          faultWitnessWorld
        = applyQueue
            (deferredActionCatch "cb_sys" (.Event 1) 3 (some 1)
                (fun _ => .error ()) :: [fun _ => .ok w0])
            faultWitnessWorld) :=
  ⟨⟨rfl, rfl, rfl⟩,
    c5_fault_reported_with_context "cb_sys" (.Event 1) 3 (some 1)
      (fun _ => .error ()) faultWitnessWorld
      [fun w => .ok (w.insertCallback 9)] rfl rfl rfl trivial
      (fun _ => rfl)⟩

/-!
Hierarchy propagation (`propagate_events` in src/event_listener.rs and
crates/event_listener/src/lib.rs).  The reader's query is
`(Entity, &Target)`: it yields every unread event entity that carries a
`Target`, with no filter on `PropagatedEvent`.  The parent store is a
function `Entity → Option Entity`; the unbounded `while let` walk is
given explicit fuel (the hierarchy is assumed acyclic by the caller, so
any fuel at least the chain height is exact, and every theorem below
holds for all fuel).
-/

/-- An unread event as `propagate_events` sees it: its entity id, its
optional `Target` component and its optional `PropagatedEvent`
component. -/
structure EventRecord where
  id : Entity
  target : Option Entity
  propagatedFrom : Option Entity
deriving DecidableEq

/-- The `while let Ok(parent) = query.get(target)` loop body: emit
`(Target(parent), PropagatedEvent(event))` for each ancestor, walking
upward, stopping at the first entity with no parent. -/
def propagateFrom (parent : Entity → Option Entity) :
    Nat → Entity → Entity → List (Entity × Entity)
  | 0, _, _ => []
  | fuel + 1, event, t =>
      match parent t with
      | none => []
      | some p => (p, event) :: propagateFrom parent fuel event p

/-- `propagate_events`: for every unread event that carries a `Target`
(the query silently skips the others), run the parent-chain walk.  The
output lists the enqueued derived events as
(`Target` value, `PropagatedEvent` value) pairs, in emission order. -/
def propagate_events (parent : Entity → Option Entity) (fuel : Nat)
    (events : List EventRecord) : List (Entity × Entity) :=
  events.foldr
    (fun ev acc =>
      (match ev.target with
       | none => []
       | some t => propagateFrom parent fuel ev.id t) ++ acc)
    []

/-- The ancestor chain of `t`: every ancestor reached by iterating the
parent store, stopping at the first entity with no parent. -/
def ancestors (parent : Entity → Option Entity) : Nat → Entity → List Entity
  | 0, _ => []
  | fuel + 1, t =>
      match parent t with
      | none => []
      | some p => p :: ancestors parent fuel p

/-- The propagation step as claim C6 words it: only root events (no
`PropagatedFrom` record) are processed. -/
def propagateOnlyRoots (parent : Entity → Option Entity) (fuel : Nat)
    (events : List EventRecord) : List (Entity × Entity) :=
  events.foldr
    (fun ev acc =>
      (match ev.propagatedFrom, ev.target with
       | some _, _ => []
       | none, none => []
       | none, some t => propagateFrom parent fuel ev.id t) ++ acc)
    []

/-- C6 counterexample: an unread *propagated* event (entity 10, carrying
`Target(3)` and `PropagatedFrom(7)`) whose target has a parent is
processed by `propagate_events` just like a root event — it enqueues a
derivative `(Target(4), PropagatedFrom(10))` — whereas the claim's
"only for root events" would enqueue nothing. -/
theorem c6_propagates_non_root_counterexample :
    propagate_events (fun x => if x = 3 then some 4 else none) 5
        [⟨10, some 3, some 7⟩]
      = [(4, 10)] ∧
    propagateOnlyRoots (fun x => if x = 3 then some 4 else none) 5
        [⟨10, some 3, some 7⟩]
      = [] ∧
    propagate_events (fun x => if x = 3 then some 4 else none) 5
        [⟨10, some 3, some 7⟩]
      ≠ propagateOnlyRoots (fun x => if x = 3 then some 4 else none) 5
        [⟨10, some 3, some 7⟩] := by
  refine ⟨rfl, rfl, ?_⟩
  decide

theorem propagateFrom_eq_map_ancestors (parent : Entity → Option Entity)
    (fuel : Nat) (event t : Entity) :
    propagateFrom parent fuel event t
      = (ancestors parent fuel t).map (fun p => (p, event)) := by
  induction fuel generalizing t with
  | zero => rfl
  | succ fuel ih =>
      simp only [propagateFrom, ancestors]
      cases parent t with
      | none => rfl
      | some p => simp [ih p]

/-- C6 as amended: for every unread event carrying `Target(t)` — root
*or* propagated, the step does not distinguish — exactly one derived
event tagged `Target(p)` and `PropagatedFrom(that event)` is enqueued
for each ancestor `p` on `t`'s parent chain, in chain order, the walk
stopping at the first entity with no parent; events without a `Target`
contribute nothing. -/
theorem c6_propagation_all_target_events (parent : Entity → Option Entity)
    (fuel : Nat) (events : List EventRecord) :
    propagate_events parent fuel events
      = events.foldr
          (fun ev acc =>
            (match ev.target with
             | none => []
             | some t => (ancestors parent fuel t).map (fun p => (p, ev.id))) ++ acc)
          [] := by
  induction events with
  | nil => rfl
  | cons ev evs ih =>
      simp only [propagate_events] at ih ⊢
      simp only [List.foldr_cons]
      rw [ih]
      cases h : ev.target with
      | none => simp [h]
      | some t => simp [h, propagateFrom_eq_map_ancestors]

end BevyEvents
